import Mathlib

/-!
Verification development for the fixture-ingestion pipeline of the
`futbalandrej` repository.

The definitions below are shallow embeddings of the Python source:

* `CacheStore`, `getFromCache`, `setCache` model the tiered cache of
  `FootballAPI` (`src/api.py`, `_initialize_cache` / `_get_from_cache` /
  `_set_cache`).  Time is modelled as a rational number of seconds;
  tier durations are 15 minutes, 6 hours and 24 hours, in seconds.
* `wifNeeded` / `rlRun` model `RateLimiter.wait_if_needed`
  (`src/callbacks/data_collection_callback.py`).
* `brStep` / `batchRequest` model `FootballAPI._batch_request`.
* `collectFixtureDetails`, `chunkStep`, `stepChunk`, `runPipeline` model
  `collect_fixture_details` and `process_collection`
  (`src/callbacks/data_collection_callback.py`).
* `fetchStandingsOne`, `fetchPlayerStatistics`, `fetchNextFixtures` model
  the corresponding `FootballAPI` methods.

Opaque JSON payloads (team blobs, event lists, ...) are abstracted to
`List ℕ`; Python truthiness of a cached payload is modelled by an explicit
`truthy` function, since the source tests payloads with `if cached_data:`.
-/

/-- The three cache tiers of `FootballAPI._initialize_cache`. -/
inductive CacheType where
  | short
  | medium
  | long
deriving DecidableEq

/-- Tier durations in seconds: 15 minutes, 6 hours, 24 hours
(`timedelta(minutes=15)`, `timedelta(hours=6)`, `timedelta(hours=24)`). -/
def tierDuration : CacheType → ℚ
  | CacheType.short => 900
  | CacheType.medium => 21600
  | CacheType.long => 86400

/-- Cache keys.  In the source the keys are strings with mutually distinct
shapes (`f"{url}_{json.dumps(params)}"`, `f"standings_{league_id}"`,
`f"player_stats_{league}_{team}"`, `f"next_fixtures_{league}_{season}"`);
we model each shape by its own constructor, which keeps the injectivity
those string patterns have. -/
inductive CKey where
  | batch (url : String) (p : ℕ)
  | nextBatch (league : ℕ) (season : String) (next : ℕ)
  | standings (league : ℕ)
  | playerStats (league team : ℕ)
  | nextFixtures (league : ℕ) (season : String)
deriving DecidableEq

/-- The entry maps of the three tiers: each tier maps a key to a stored
value together with the `datetime.now()` timestamp recorded by
`_set_cache`. -/
def CacheStore (α : Type) : Type := CacheType → CKey → Option (α × ℚ)

/-- `FootballAPI._get_from_cache`: return the stored value if present and
`now - timestamp < duration`; an expired entry is deleted (lazy eviction)
and `None` is returned.  The function returns the looked-up value together
with the possibly-updated store. -/
def getFromCache {α : Type} (c : CacheStore α) (now : ℚ) (key : CKey)
    (ct : CacheType) : Option α × CacheStore α :=
  match c ct key with
  | none => (none, c)
  | some (v, ts) =>
      if now - ts < tierDuration ct then (some v, c)
      else (none, fun t k => if t = ct ∧ k = key then none else c t k)

/-- `FootballAPI._set_cache`: unconditionally overwrite the entry,
stamping the current time. -/
def setCache {α : Type} (c : CacheStore α) (now : ℚ) (key : CKey) (v : α)
    (ct : CacheType) : CacheStore α :=
  fun t k => if t = ct ∧ k = key then some (v, now) else c t k

theorem tierDuration_pos (ct : CacheType) : 0 < tierDuration ct := by
  cases ct <;> norm_num [tierDuration]

/-- `RateLimiter.wait_if_needed`, one call at wall-clock time `now`:
prune timestamps older than the 60-second window, sleep
`60 - (now - calls[0])` when the pruned list is full, then append `now`
(the pre-sleep time, exactly as the source does).  Returns the new
timestamp list and the slept duration. -/
def wifNeeded (cpm : ℕ) (now : ℚ) (calls : List ℚ) : List ℚ × ℚ :=
  let pruned := calls.filter (fun t => now - t < 60)
  let sleepT : ℚ :=
    if cpm ≤ pruned.length then
      match pruned with
      | [] => 0
      | t0 :: _ => max (60 - (now - t0)) 0
    else 0
  (pruned ++ [now], sleepT)

/-- A sequence of sequential `wait_if_needed` calls.  Each requested call
happens no earlier than the return of the previous call (`max req ready`),
which models a caller thread that blocks in `time.sleep`.  The state is
the shared timestamp list together with the time at which the last call
returned. -/
def rlRun (cpm : ℕ) (reqs : List ℚ) : List ℚ × ℚ :=
  reqs.foldl
    (fun st req =>
      let now := max req st.2
      let r := wifNeeded cpm now st.1
      (r.1, now + r.2))
    ([], 0)

/-- The four per-fixture detail sub-resources fetched by
`collect_fixture_details` (`/fixtures/events`, `/fixtures/lineups`,
`/fixtures/statistics`, `/fixtures/players`). -/
inductive DetailKind where
  | events
  | lineups
  | statistics
  | players
deriving DecidableEq

/-- Opaque JSON array payload. -/
abbrev Payload := List ℕ

/-- The assembled detail dictionary returned by
`collect_fixture_details`. -/
structure Details where
  events : Payload
  lineups : Payload
  statistics : Payload
  players : Payload
deriving DecidableEq

/-- The `{}` returned by `collect_fixture_details` on failure; the caller
reads it with `details.get(kind, [])`, i.e. every field is `[]`. -/
def emptyDetails : Details := ⟨[], [], [], []⟩

/-- A fixture as returned by the `/fixtures` list endpoint.  `id` and
`date` are the fields the pipeline branches on
(`fixture['fixture']['id']`, `fixture['fixture']['date']`); `info`
abstracts the remaining opaque payload (`league`, `teams`, `goals`,
`score`). -/
structure Fixture where
  id : ℕ
  date : String
  info : ℕ
deriving DecidableEq

/-- A document of the `fixtures` collection, as written by
`process_collection` (the `fixture` sub-dictionary plus the four detail
arrays; `updated_at` is a server-side timestamp and is not modelled). -/
structure StoredRecord where
  fixture : Fixture
  details : Details
deriving DecidableEq

/-- The Firestore `fixtures` collection: fixture id to document. -/
def Store : Type := ℕ → Option StoredRecord

/-- Outcome oracle for the detail endpoints: `none` means the
corresponding `make_api_request` raised (non-200 status, transport error,
or a non-empty `errors` field). -/
def Oracle : Type := ℕ → DetailKind → Option Payload

/-- `collect_fixture_details`: fetch the four sub-resources in order
inside one `try`.  The first failing request aborts the remaining ones
and the function returns `{}` (here `emptyDetails`).  Also returns the
list of HTTP detail requests actually issued. -/
def collectFixtureDetails (O : Oracle) (fid : ℕ) :
    Details × List (ℕ × DetailKind) :=
  match O fid DetailKind.events with
  | none => (emptyDetails, [(fid, DetailKind.events)])
  | some ev =>
    match O fid DetailKind.lineups with
    | none => (emptyDetails, [(fid, DetailKind.events), (fid, DetailKind.lineups)])
    | some lu =>
      match O fid DetailKind.statistics with
      | none => (emptyDetails,
          [(fid, DetailKind.events), (fid, DetailKind.lineups),
           (fid, DetailKind.statistics)])
      | some stt =>
        match O fid DetailKind.players with
        | none => (emptyDetails,
            [(fid, DetailKind.events), (fid, DetailKind.lineups),
             (fid, DetailKind.statistics), (fid, DetailKind.players)])
        | some pl => (⟨ev, lu, stt, pl⟩,
            [(fid, DetailKind.events), (fid, DetailKind.lineups),
             (fid, DetailKind.statistics), (fid, DetailKind.players)])

/-- The record assembled for a processed fixture. -/
def recordOf (f : Fixture) (d : Details) : StoredRecord := ⟨f, d⟩

/-- The skip test of `process_collection`: a fixture is processed unless a
stored document exists whose `fixture.date` equals the freshly fetched
date (`if fixture_date == stored_date: continue`). -/
def notSkipped (S : Store) (f : Fixture) : Bool :=
  match S f.id with
  | some r => if r.fixture.date = f.date then false else true
  | none => true

/-- One fixture of the inner loop of `process_collection`: either skip,
or fetch details and stage `(id, record)` on the pending batch.  The
state is the pending batch plus the detail-request trace. -/
def chunkStep (O : Oracle) (S : Store)
    (st : List (ℕ × StoredRecord) × List (ℕ × DetailKind)) (f : Fixture) :
    List (ℕ × StoredRecord) × List (ℕ × DetailKind) :=
  if notSkipped S f then
    let dc := collectFixtureDetails O f.id
    (st.1 ++ [(f.id, recordOf f dc.1)], st.2 ++ dc.2)
  else st

/-- Process one chunk of fixtures against the committed store `S`
(staged batch writes are not visible to `doc_ref.get()` within the
chunk). -/
def processChunk (O : Oracle) (S : Store) (chunk : List Fixture) :
    List (ℕ × StoredRecord) × List (ℕ × DetailKind) :=
  chunk.foldl (chunkStep O S) ([], [])

/-- `batch.commit()`: apply the staged writes, in order, to the store. -/
def applyBatch (S : Store) (b : List (ℕ × StoredRecord)) : Store :=
  b.foldl (fun s e => fun k => if k = e.1 then some e.2 else s k) S

/-- Fuel-driven chunking; `chunksOf 20 l` mirrors
`[fixtures[i:i + 20] for i in range(0, len(fixtures), 20)]`. -/
def chunksOfAux (n : ℕ) : ℕ → List Fixture → List (List Fixture)
  | 0, _ => []
  | _, [] => []
  | fuel + 1, l => l.take n :: chunksOfAux n fuel (l.drop n)

def chunksOf (n : ℕ) (l : List Fixture) : List (List Fixture) :=
  chunksOfAux n l.length l

/-- Rounds a percentage to one decimal place, as `f"{progress:.1f}"`
renders the values arising here. -/
def fmtTenth (q : ℚ) : String :=
  let n : ℤ := ⌊q * 10 + 1 / 2⌋
  toString (n / 10) ++ "." ++ toString (n % 10)

/-- The progress string
`f"Progress: {progress:.1f}% ({total_processed}/{total_fixtures})"` with
`progress = (total_processed / total_fixtures) * 100`. -/
def progressMsg (p total : ℕ) : String :=
  "Progress: " ++ fmtTenth ((p : ℚ) * 100 / (total : ℚ)) ++ "% ("
    ++ toString p ++ "/" ++ toString total ++ ")"

/-- Observable state of one `process_collection` run. `chunkLog` records,
per chunk, the staged batch, the cumulative processed count before the
chunk, and whether `batch.commit()` was called. -/
structure RunState where
  store : Store
  processed : ℕ
  commits : List (List (ℕ × StoredRecord))
  chunkLog : List (List (ℕ × StoredRecord) × ℕ × Bool)
  calls : List (ℕ × DetailKind)
  progress : String

def initState (S : Store) : RunState :=
  { store := S, processed := 0, commits := [], chunkLog := [], calls := [],
    progress := "" }

/-- One iteration of the chunk loop of `process_collection`: process the
chunk, then `if total_processed > 0: batch.commit()` — note the condition
is the cumulative counter, not the size of the pending batch — and update
the progress string. -/
def stepChunk (O : Oracle) (total : ℕ) (st : RunState)
    (chunk : List Fixture) : RunState :=
  let bc := processChunk O st.store chunk
  let p := st.processed + bc.1.length
  { store := if 0 < p then applyBatch st.store bc.1 else st.store,
    processed := p,
    commits := if 0 < p then st.commits ++ [bc.1] else st.commits,
    chunkLog := st.chunkLog ++ [(bc.1, st.processed, decide (0 < p))],
    calls := st.calls ++ bc.2,
    progress := progressMsg p total }

/-- `process_collection` after the fixture list has been fetched: an
empty list logs "No fixtures found" and returns immediately; otherwise
the fixtures are processed in chunks of 20. -/
def runPipeline (O : Oracle) (S : Store) (fixtures : List Fixture) :
    RunState :=
  if fixtures.isEmpty then initState S
  else (chunksOf 20 fixtures).foldl (stepChunk O fixtures.length)
    (initState S)

/-- C3: for every tier and key, a `set` followed immediately by a `get`
returns the stored value; a `get` performed more than the tier TTL after
the `set` returns `none`, removes the key from that tier's entry map, and
changes nothing else (lazy eviction). -/
theorem cache_ttl_get_set :
    (∀ (α : Type) (c : CacheStore α) (now : ℚ) (key : CKey) (ct : CacheType)
        (v : α),
      (getFromCache (setCache c now key v ct) now key ct).1 = some v) ∧
    (∀ (α : Type) (c : CacheStore α) (t0 t1 : ℚ) (key : CKey) (ct : CacheType)
        (v : α),
      tierDuration ct < t1 - t0 →
      (getFromCache (setCache c t0 key v ct) t1 key ct).1 = none ∧
      (getFromCache (setCache c t0 key v ct) t1 key ct).2 ct key = none ∧
      ∀ (t : CacheType) (k : CKey), ¬(t = ct ∧ k = key) →
        (getFromCache (setCache c t0 key v ct) t1 key ct).2 t k
          = setCache c t0 key v ct t k) := by
  constructor
  · intro α c now key ct v
    have hd := tierDuration_pos ct
    simp [getFromCache, setCache, hd]
  · intro α c t0 t1 key ct v h
    have hc : setCache c t0 key v ct ct key = some (v, t0) := by
      simp [setCache]
    have hnot : ¬ (t1 - t0 < tierDuration ct) := not_lt.mpr (le_of_lt h)
    refine ⟨?_, ?_, ?_⟩
    · simp only [getFromCache, hc]
      rw [if_neg hnot]
    · simp only [getFromCache, hc]
      rw [if_neg hnot]
      simp
    · intro t k hk
      simp only [getFromCache, hc]
      rw [if_neg hnot]
      simp only []
      rw [if_neg hk]

/-- Witness for `cache_ttl_get_set` at a concrete tier, key and clock. -/
theorem cache_ttl_get_set_witness :
    (getFromCache
        (setCache (fun _ _ => none : CacheStore ℕ) 0 (CKey.standings 39) 5
          CacheType.short) 0 (CKey.standings 39) CacheType.short).1 = some 5 ∧
    (getFromCache
        (setCache (fun _ _ => none : CacheStore ℕ) 0 (CKey.standings 39) 5
          CacheType.short) 1000 (CKey.standings 39) CacheType.short).1
      = none :=
  ⟨cache_ttl_get_set.1 ℕ (fun _ _ => none) 0 (CKey.standings 39)
      CacheType.short 5,
    (cache_ttl_get_set.2 ℕ (fun _ _ => none) 0 1000 (CKey.standings 39)
        CacheType.short 5 (by norm_num [tierDuration])).1⟩

/-- Invariant carried by the rate-limiter state `(calls, readyAt)`: the
timestamp list never exceeds `cpm + 1` entries, and when it is full its
oldest entry is at least 60 seconds older than the time at which the last
call returned. -/
def RLInv (cpm : ℕ) (s : List ℚ × ℚ) : Prop :=
  s.1.length ≤ cpm + 1 ∧
  (s.1.length = cpm + 1 → ∃ t0 rest, s.1 = t0 :: rest ∧ t0 + 60 ≤ s.2)

theorem rlStep_inv (cpm : ℕ) (hcpm : 1 ≤ cpm) (s : List ℚ × ℚ) (req : ℚ)
    (h : RLInv cpm s) :
    RLInv cpm
      ((wifNeeded cpm (max req s.2) s.1).1,
        max req s.2 + (wifNeeded cpm (max req s.2) s.1).2) := by
  set now := max req s.2 with hnowdef
  have hnow : s.2 ≤ now := le_max_right _ _
  have hpr :
      (wifNeeded cpm now s.1).1
        = s.1.filter (fun t => decide (now - t < 60)) ++ [now] := rfl
  have hlenpr : (s.1.filter (fun t => decide (now - t < 60))).length ≤ cpm := by
    rcases Nat.lt_or_ge s.1.length (cpm + 1) with h1 | h1
    · exact le_trans (List.length_filter_le _ _) (Nat.lt_succ_iff.mp h1)
    · have hfull : s.1.length = cpm + 1 := le_antisymm h.1 h1
      obtain ⟨t0, rest, hs, ht⟩ := h.2 hfull
      have hdrop : ¬ (now - t0 < 60) := by
        have : t0 + 60 ≤ now := le_trans ht hnow
        linarith
      rw [hs]
      rw [List.filter_cons_of_neg]
      · have hr : rest.length = cpm := by
          have := hfull
          rw [hs] at this
          simpa using this
        exact le_trans (List.length_filter_le _ _) (le_of_eq hr)
      · simpa using hdrop
  constructor
  · rw [hpr]
    simp only [List.length_append, List.length_cons, List.length_nil]
    omega
  · intro hfull'
    rw [hpr] at hfull' ⊢
    simp only [List.length_append, List.length_cons, List.length_nil] at hfull'
    have hplen : (s.1.filter (fun t => decide (now - t < 60))).length = cpm := by
      omega
    have hne : s.1.filter (fun t => decide (now - t < 60)) ≠ [] := by
      intro hnil
      rw [hnil] at hplen
      simp at hplen
      omega
    obtain ⟨t0, rest, hsp⟩ := List.exists_cons_of_ne_nil hne
    have hbranch : cpm ≤ (s.1.filter (fun t => decide (now - t < 60))).length :=
      le_of_eq hplen.symm
    refine ⟨t0, rest ++ [now], ?_, ?_⟩
    · rw [hsp]
      simp
    · have hsl : (wifNeeded cpm now s.1).2 = max (60 - (now - t0)) 0 := by
        simp only [wifNeeded]
        rw [if_pos hbranch, hsp]
      show t0 + 60 ≤ now + (wifNeeded cpm now s.1).2
      rw [hsl]
      have : 60 - (now - t0) ≤ max (60 - (now - t0)) 0 := le_max_left _ _
      linarith

theorem rlRun_inv (cpm : ℕ) (hcpm : 1 ≤ cpm) (reqs : List ℚ)
    (s : List ℚ × ℚ) (h : RLInv cpm s) :
    RLInv cpm
      (reqs.foldl
        (fun st req =>
          let now := max req st.2
          let r := wifNeeded cpm now st.1
          (r.1, now + r.2)) s) := by
  induction reqs generalizing s with
  | nil => exact h
  | cons req rest ih =>
      exact ih _ (rlStep_inv cpm hcpm s req h)

unseal Rat.sub Rat.add Rat.mul Rat.inv in
/-- C4 counterexample: with `maxCalls = 30`, after 31 calls issued at
times 0, 1, ..., 30 seconds the recorded timestamp list holds 31 entries
when `wait_if_needed` returns — the claimed bound `≤ maxCalls` fails,
because the call timestamp is appended after the admission check without
re-pruning. -/
theorem rate_window_at_most_maxCalls_cex :
    ¬ ((rlRun 30 ((List.range 31).map (fun i : ℕ => (i : ℚ)))).1.length ≤ 30) := by
  decide

/-- C4 amended: after every return of `wait_if_needed`, the recorded
timestamp list contains at most `maxCalls + 1` entries (timestamps older
than the 60-second window are pruned before the admission check, and the
current call's timestamp is appended after it). -/
theorem rate_window_after_return_bound (cpm : ℕ) (reqs : List ℚ)
    (hcpm : 1 ≤ cpm) : (rlRun cpm reqs).1.length ≤ cpm + 1 := by
  have h0 : RLInv cpm ([], 0) := by
    constructor
    · simp
    · intro hh
      simp at hh
  exact (rlRun_inv cpm hcpm reqs ([], 0) h0).1

/-- Witness for `rate_window_after_return_bound` on the 31-call trace. -/
theorem rate_window_after_return_bound_witness :
    (rlRun 30 ((List.range 31).map (fun i : ℕ => (i : ℚ)))).1.length ≤ 31 :=
  rate_window_after_return_bound 30 _ (by decide)

/-- The batch staged by a chunk: one `(id, record)` entry per non-skipped
fixture, in order. -/
def chunkBatch (O : Oracle) (S : Store) (chunk : List Fixture) :
    List (ℕ × StoredRecord) :=
  (chunk.filter (notSkipped S)).map
    (fun f => (f.id, recordOf f (collectFixtureDetails O f.id).1))

/-- The detail requests issued while processing a chunk. -/
def chunkCalls (O : Oracle) (S : Store) (chunk : List Fixture) :
    List (ℕ × DetailKind) :=
  ((chunk.filter (notSkipped S)).map
    (fun f => (collectFixtureDetails O f.id).2)).flatten

theorem processChunk_aux (O : Oracle) (S : Store) (chunk : List Fixture) :
    ∀ (b : List (ℕ × StoredRecord)) (c : List (ℕ × DetailKind)),
      chunk.foldl (chunkStep O S) (b, c)
        = (b ++ chunkBatch O S chunk, c ++ chunkCalls O S chunk) := by
  induction chunk with
  | nil => intro b c; simp [chunkBatch, chunkCalls]
  | cons f rest ih =>
      intro b c
      by_cases h : notSkipped S f
      · simp only [List.foldl_cons, chunkStep, h, if_pos]
        rw [ih]
        simp [chunkBatch, chunkCalls, h, List.filter_cons_of_pos]
      · have hb : notSkipped S f = false := by
          revert h; cases notSkipped S f <;> simp
        simp only [List.foldl_cons, chunkStep, hb]
        rw [if_neg (by simp [hb])]
        rw [ih]
        simp [chunkBatch, chunkCalls, List.filter_cons_of_neg, hb]

theorem processChunk_eq (O : Oracle) (S : Store) (chunk : List Fixture) :
    processChunk O S chunk = (chunkBatch O S chunk, chunkCalls O S chunk) := by
  have := processChunk_aux O S chunk [] []
  simpa [processChunk] using this

theorem mem_chunkBatch (O : Oracle) (S : Store) (chunk : List Fixture)
    (e : ℕ × StoredRecord) :
    e ∈ chunkBatch O S chunk
      ↔ ∃ f, f ∈ chunk ∧ notSkipped S f = true
          ∧ e = (f.id, recordOf f (collectFixtureDetails O f.id).1) := by
  simp only [chunkBatch, List.mem_map, List.mem_filter]
  constructor
  · rintro ⟨f, ⟨hf, hns⟩, he⟩
    exact ⟨f, hf, hns, he.symm⟩
  · rintro ⟨f, hf, hns, he⟩
    exact ⟨f, ⟨hf, hns⟩, he.symm⟩

theorem chunksOfAux_flatten (n : ℕ) (hn : 0 < n) :
    ∀ (fuel : ℕ) (l : List Fixture), l.length ≤ fuel →
      (chunksOfAux n fuel l).flatten = l := by
  intro fuel
  induction fuel with
  | zero =>
      intro l hl
      have : l = [] := List.eq_nil_of_length_eq_zero (Nat.le_zero.mp hl)
      subst this
      rfl
  | succ fuel ih =>
      intro l hl
      cases l with
      | nil => rfl
      | cons x xs =>
          show (List.take n (x :: xs) :: chunksOfAux n fuel (List.drop n (x :: xs))).flatten
            = x :: xs
          rw [List.flatten_cons]
          rw [ih (List.drop n (x :: xs)) ?_]
          · exact List.take_append_drop n (x :: xs)
          · have hlen : (List.drop n (x :: xs)).length = (x :: xs).length - n :=
              List.length_drop n (x :: xs)
            have : (x :: xs).length ≤ fuel + 1 := hl
            simp only [List.length_cons] at this
            omega

theorem chunksOf_flatten (n : ℕ) (hn : 0 < n) (l : List Fixture) :
    (chunksOf n l).flatten = l :=
  chunksOfAux_flatten n hn l.length l le_rfl

theorem mem_of_mem_chunksOf (n : ℕ) (hn : 0 < n) (l : List Fixture)
    (c : List Fixture) (f : Fixture) (hc : c ∈ chunksOf n l) (hf : f ∈ c) :
    f ∈ l := by
  have : f ∈ (chunksOf n l).flatten := List.mem_flatten.mpr ⟨c, hc, hf⟩
  rwa [chunksOf_flatten n hn l] at this

theorem applyBatch_ne (S : Store) (b : List (ℕ × StoredRecord)) (i : ℕ)
    (h : ∀ e ∈ b, e.1 ≠ i) : applyBatch S b i = S i := by
  induction b generalizing S with
  | nil => rfl
  | cons e b' ih =>
      show applyBatch (fun k => if k = e.1 then some e.2 else S k) b' i = S i
      rw [ih (fun k => if k = e.1 then some e.2 else S k)
        (fun e' he' => h e' (List.mem_cons_of_mem _ he'))]
      have : i ≠ e.1 := fun hh => h e (List.mem_cons_self _ _) hh.symm
      simp [this]

theorem applyBatch_mem (S : Store) (b : List (ℕ × StoredRecord)) (i : ℕ)
    (r : StoredRecord) (hnd : (b.map Prod.fst).Nodup) (hm : (i, r) ∈ b) :
    applyBatch S b i = some r := by
  induction b generalizing S with
  | nil => cases hm
  | cons e b' ih =>
      rw [List.map_cons, List.nodup_cons] at hnd
      rcases List.mem_cons.mp hm with he | hm'
      · subst he
        show applyBatch (fun k => if k = i then some r else S k) b' i = some r
        rw [applyBatch_ne _ b' i ?hne]
        · simp
        · intro e' he' hei
          exact hnd.1 (by simpa [hei] using List.mem_map_of_mem Prod.fst he')
      · exact ih (fun k => if k = e.1 then some e.2 else S k) hnd.2 hm'

theorem stepChunk_store_eq (O : Oracle) (total : ℕ) (st : RunState)
    (c : List Fixture) :
    (stepChunk O total st c).store
      = if 0 < st.processed + (chunkBatch O st.store c).length
        then applyBatch st.store (chunkBatch O st.store c) else st.store := by
  simp only [stepChunk, processChunk_eq]

theorem stepChunk_processed_eq (O : Oracle) (total : ℕ) (st : RunState)
    (c : List Fixture) :
    (stepChunk O total st c).processed
      = st.processed + (chunkBatch O st.store c).length := by
  simp only [stepChunk, processChunk_eq]

theorem stepChunk_commits_eq (O : Oracle) (total : ℕ) (st : RunState)
    (c : List Fixture) :
    (stepChunk O total st c).commits
      = if 0 < st.processed + (chunkBatch O st.store c).length
        then st.commits ++ [chunkBatch O st.store c] else st.commits := by
  simp only [stepChunk, processChunk_eq]

theorem stepChunk_calls_eq (O : Oracle) (total : ℕ) (st : RunState)
    (c : List Fixture) :
    (stepChunk O total st c).calls = st.calls ++ chunkCalls O st.store c := by
  simp only [stepChunk, processChunk_eq]

theorem stepChunk_chunkLog_eq (O : Oracle) (total : ℕ) (st : RunState)
    (c : List Fixture) :
    (stepChunk O total st c).chunkLog
      = st.chunkLog ++ [(chunkBatch O st.store c, st.processed,
          decide (0 < st.processed + (chunkBatch O st.store c).length))] := by
  simp only [stepChunk, processChunk_eq]

theorem chunkBatch_map_fst (O : Oracle) (S : Store) (c : List Fixture) :
    (chunkBatch O S c).map Prod.fst
      = (c.filter (notSkipped S)).map Fixture.id := by
  rw [chunkBatch, List.map_map]
  rfl

theorem chunkBatch_fst_nodup (O : Oracle) (S : Store) (c : List Fixture)
    (h : (c.map Fixture.id).Nodup) :
    ((chunkBatch O S c).map Prod.fst).Nodup := by
  rw [chunkBatch_map_fst]
  exact List.Nodup.sublist ((List.filter_sublist c).map Fixture.id) h

theorem notSkipped_false_iff (S : Store) (f : Fixture) :
    notSkipped S f = false
      ↔ ∃ r, S f.id = some r ∧ r.fixture.date = f.date := by
  unfold notSkipped
  cases h : S f.id with
  | none => simp
  | some r =>
      by_cases hd : r.fixture.date = f.date
      · simp [hd]
      · simp [hd]

theorem foldStep_store_untouched (O : Oracle) (total : ℕ)
    (cl : List (List Fixture)) (i : ℕ) :
    ∀ st : RunState, (∀ c ∈ cl, ∀ f ∈ c, f.id ≠ i) →
      (cl.foldl (stepChunk O total) st).store i = st.store i := by
  induction cl with
  | nil => intro st _; rfl
  | cons c cl' ih =>
      intro st h
      rw [List.foldl_cons]
      rw [ih (stepChunk O total st c)
        (fun c' hc' => h c' (List.mem_cons_of_mem _ hc'))]
      have hb : ∀ e ∈ chunkBatch O st.store c, e.1 ≠ i := by
        intro e he
        rcases (mem_chunkBatch O st.store c e).mp he with ⟨f, hf, hns, rfl⟩
        exact h c (List.mem_cons_self _ _) f hf
      rw [stepChunk_store_eq]
      by_cases hcm : 0 < st.processed + (chunkBatch O st.store c).length
      · rw [if_pos hcm, applyBatch_ne st.store _ i hb]
      · rw [if_neg hcm]

theorem foldStep_store_matches (O : Oracle) (total : ℕ)
    (cl : List (List Fixture)) :
    ∀ st : RunState, ((cl.flatten).map Fixture.id).Nodup →
      ∀ f ∈ cl.flatten,
        ∃ r, (cl.foldl (stepChunk O total) st).store f.id = some r
          ∧ r.fixture.date = f.date := by
  induction cl with
  | nil => intro st _ f hf; cases hf
  | cons c cl' ih =>
      intro st hnd f hf
      rw [List.flatten_cons] at hf hnd
      rw [List.map_append] at hnd
      have hndc : (c.map Fixture.id).Nodup := (List.nodup_append.mp hnd).1
      have hndj : ((cl'.flatten).map Fixture.id).Nodup :=
        (List.nodup_append.mp hnd).2.1
      have hdisj := (List.nodup_append.mp hnd).2.2
      rw [List.foldl_cons]
      rcases List.mem_append.mp hf with hfc | hfj
      · have hstep : ∃ r, (stepChunk O total st c).store f.id = some r
            ∧ r.fixture.date = f.date := by
          by_cases hns : notSkipped st.store f = true
          · have hmem :
                (f.id, recordOf f (collectFixtureDetails O f.id).1)
                  ∈ chunkBatch O st.store c :=
              (mem_chunkBatch O st.store c _).mpr ⟨f, hfc, hns, rfl⟩
            have hpos : 0 < st.processed + (chunkBatch O st.store c).length := by
              have hne : (chunkBatch O st.store c) ≠ [] := by
                intro h0
                rw [h0] at hmem
                cases hmem
              have := List.length_pos.mpr hne
              omega
            refine ⟨recordOf f (collectFixtureDetails O f.id).1, ?_, rfl⟩
            rw [stepChunk_store_eq, if_pos hpos]
            exact applyBatch_mem st.store _ f.id _
              (chunkBatch_fst_nodup O st.store c hndc) hmem
          · have hns' : notSkipped st.store f = false := by
              revert hns
              cases notSkipped st.store f <;> simp
            obtain ⟨r, hr, hdate⟩ := (notSkipped_false_iff st.store f).mp hns'
            refine ⟨r, ?_, hdate⟩
            have hb : ∀ e ∈ chunkBatch O st.store c, e.1 ≠ f.id := by
              intro e he hei
              rcases (mem_chunkBatch O st.store c e).mp he with ⟨g, hg, hgns, rfl⟩
              have hgf : g = f :=
                List.inj_on_of_nodup_map hndc hg hfc hei
              rw [hgf] at hgns
              rw [hns'] at hgns
              cases hgns
            rw [stepChunk_store_eq]
            by_cases hcm : 0 < st.processed + (chunkBatch O st.store c).length
            · rw [if_pos hcm, applyBatch_ne st.store _ f.id hb]
              exact hr
            · rw [if_neg hcm]
              exact hr
        obtain ⟨r, hr, hdate⟩ := hstep
        refine ⟨r, ?_, hdate⟩
        rw [foldStep_store_untouched O total cl' f.id (stepChunk O total st c) ?_]
        · exact hr
        · intro c' hc' g hg hgid
          exact hdisj (List.mem_map_of_mem _ hfc)
            (hgid ▸ List.mem_map_of_mem Fixture.id
              (List.mem_flatten.mpr ⟨c', hc', hg⟩))
      · exact ih (stepChunk O total st c) hndj f hfj

theorem foldStep_all_skipped (O : Oracle) (total : ℕ)
    (cl : List (List Fixture)) :
    ∀ st : RunState, st.processed = 0 →
      (∀ c ∈ cl, ∀ f ∈ c, notSkipped st.store f = false) →
      (cl.foldl (stepChunk O total) st).calls = st.calls
        ∧ (cl.foldl (stepChunk O total) st).commits = st.commits
        ∧ (cl.foldl (stepChunk O total) st).store = st.store
        ∧ (cl.foldl (stepChunk O total) st).processed = 0 := by
  induction cl with
  | nil => intro st hp _; exact ⟨rfl, rfl, rfl, hp⟩
  | cons c cl' ih =>
      intro st hp h
      have hfilter : c.filter (notSkipped st.store) = [] := by
        rw [List.filter_eq_nil_iff]
        intro f hf
        rw [h c (List.mem_cons_self _ _) f hf]
        simp
      have hbatch : chunkBatch O st.store c = [] := by
        rw [chunkBatch, hfilter]
        rfl
      have hcalls : chunkCalls O st.store c = [] := by
        rw [chunkCalls, hfilter]
        rfl
      have hnopos : ¬ 0 < st.processed + (chunkBatch O st.store c).length := by
        rw [hbatch, hp]
        simp
      have hst : (stepChunk O total st c).processed = 0 := by
        rw [stepChunk_processed_eq, hbatch, hp]
        rfl
      have hstore : (stepChunk O total st c).store = st.store := by
        rw [stepChunk_store_eq, if_neg hnopos]
      have hcommits : (stepChunk O total st c).commits = st.commits := by
        rw [stepChunk_commits_eq, if_neg hnopos]
      have hcallseq : (stepChunk O total st c).calls = st.calls := by
        rw [stepChunk_calls_eq, hcalls, List.append_nil]
      rw [List.foldl_cons]
      obtain ⟨h1, h2, h3, h4⟩ := ih (stepChunk O total st c) hst
        (by
          intro c' hc' f hf
          rw [hstore]
          exact h c' (List.mem_cons_of_mem _ hc') f hf)
      refine ⟨?_, ?_, ?_, h4⟩
      · rw [h1, hcallseq]
      · rw [h2, hcommits]
      · rw [h3, hstore]

/-- The final store of a run satisfies the date of every ingested fixture
(skipped fixtures already matched; processed fixtures are written with
the freshly fetched `fixture` object). -/
theorem runPipeline_store_matches (O : Oracle) (S : Store)
    (fixtures : List Fixture) (hnd : (fixtures.map Fixture.id).Nodup) :
    ∀ f ∈ fixtures,
      ∃ r, (runPipeline O S fixtures).store f.id = some r
        ∧ r.fixture.date = f.date := by
  intro f hf
  unfold runPipeline
  by_cases he : fixtures.isEmpty
  · rw [List.isEmpty_iff] at he
    rw [he] at hf
    cases hf
  · rw [if_neg he]
    have hj : (chunksOf 20 fixtures).flatten = fixtures :=
      chunksOf_flatten 20 (by norm_num) fixtures
    exact foldStep_store_matches O fixtures.length (chunksOf 20 fixtures)
      (initState S) (by rw [hj]; exact hnd) f (by rw [hj]; exact hf)

/-- C1: the skip rule makes re-ingestion idempotent.  After one run, every
fetched fixture has a stored record whose `date` equals the fetched date,
so a second run over the same fixture list (with any detail oracle `O2`)
skips every fixture: it issues zero detail requests and commits zero
batches. -/
theorem ingestion_idempotent_second_run (O O2 : Oracle) (S : Store)
    (fixtures : List Fixture)
    (hnd : (fixtures.map Fixture.id).Nodup) :
    (∀ f ∈ fixtures,
      ∃ r, (runPipeline O S fixtures).store f.id = some r
        ∧ r.fixture.date = f.date)
    ∧ (runPipeline O2 (runPipeline O S fixtures).store fixtures).calls = []
    ∧ (runPipeline O2 (runPipeline O S fixtures).store fixtures).commits
        = [] := by
  have hmatch := runPipeline_store_matches O S fixtures hnd
  refine ⟨hmatch, ?_⟩
  have hallskip : ∀ f ∈ fixtures,
      notSkipped (runPipeline O S fixtures).store f = false := by
    intro f hf
    obtain ⟨r, hr, hd⟩ := hmatch f hf
    exact (notSkipped_false_iff _ f).mpr ⟨r, hr, hd⟩
  unfold runPipeline
  by_cases he : fixtures.isEmpty
  · rw [if_pos he]
    exact ⟨rfl, rfl⟩
  · rw [if_neg he]
    obtain ⟨h1, h2, _, _⟩ := foldStep_all_skipped O2 fixtures.length
      (chunksOf 20 fixtures) (initState (runPipeline O S fixtures).store)
      rfl
      (by
        intro c hc f hf
        exact hallskip f (mem_of_mem_chunksOf 20 (by norm_num) fixtures c f hc hf))
    exact ⟨h1, h2⟩

/-- Witness for `ingestion_idempotent_second_run`: a two-fixture run with
an empty initial store; the second run performs no detail fetches and no
batch commits. -/
theorem ingestion_idempotent_second_run_witness :
    (runPipeline (fun _ _ => some [2])
      (runPipeline (fun _ _ => some [1]) (fun _ => none)
        [⟨1, "2024-08-10", 0⟩, ⟨2, "2024-08-11", 0⟩]).store
      [⟨1, "2024-08-10", 0⟩, ⟨2, "2024-08-11", 0⟩]).calls = []
    ∧ (runPipeline (fun _ _ => some [2])
      (runPipeline (fun _ _ => some [1]) (fun _ => none)
        [⟨1, "2024-08-10", 0⟩, ⟨2, "2024-08-11", 0⟩]).store
      [⟨1, "2024-08-10", 0⟩, ⟨2, "2024-08-11", 0⟩]).commits = [] :=
  (ingestion_idempotent_second_run (fun _ _ => some [1]) (fun _ _ => some [2])
    (fun _ => none) [⟨1, "2024-08-10", 0⟩, ⟨2, "2024-08-11", 0⟩]
    (by decide)).2

/-- The concrete scenario of the spec: three fixtures fetched, the first
already stored with a matching date, the other two new; every detail
fetch succeeds. -/
def c2Fix1 : Fixture := ⟨101, "d1", 0⟩

def c2Fix2 : Fixture := ⟨102, "d2", 0⟩

def c2Fix3 : Fixture := ⟨103, "d3", 0⟩

def c2Store : Store :=
  fun k => if k = 101 then some ⟨c2Fix1, emptyDetails⟩ else none

def c2Run : RunState :=
  runPipeline (fun _ _ => some [1]) c2Store [c2Fix1, c2Fix2, c2Fix3]

unseal Rat.sub Rat.add Rat.mul Rat.inv in
/-- C2 counterexample: in the 1-skipped-2-new scenario the pipeline does
issue 8 detail calls and commit one batch of 2 records, but the final
progress string is not "100.0% (2/3)": the code computes
`processed / total * 100 = 2/3 * 100`, which renders as 66.7. -/
theorem scenario_progress_cex :
    c2Run.calls.length = 8
    ∧ c2Run.commits.map List.length = [2]
    ∧ c2Run.progress ≠ "Progress: 100.0% (2/3)" := by
  decide

unseal Rat.sub Rat.add Rat.mul Rat.inv in
/-- C2 amended: in the scenario with 3 fetched fixtures of which 1 is
skipped and 2 are new, the pipeline issues 2 × 4 = 8 detail calls,
commits exactly one batch of 2 records, and the final progress string is
"Progress: 66.7% (2/3)" (the percentage is processed / total * 100 with
the skipped fixture counted in the total but not in processed). -/
theorem scenario_two_of_three_amended :
    c2Run.calls.length = 8
    ∧ c2Run.commits.map List.length = [2]
    ∧ c2Run.progress = "Progress: 66.7% (2/3)" := by
  decide

def c6Fix : Fixture := ⟨7, "2024-09-01", 0⟩

/-- A run in which every detail request fails. -/
def c6Run : RunState := runPipeline (fun _ _ => none) (fun _ => none) [c6Fix]

/-- C6 counterexample: when the detail fetch for a fixture fails (here the
very first events request), the fixture is NOT skipped: it is committed in
the batch write with all four sub-resource arrays empty.  Only one detail
request is attempted, because the exception aborts the remaining three. -/
theorem detail_failure_skip_cex :
    c6Run.commits = [[(7, recordOf c6Fix emptyDetails)]]
    ∧ c6Run.calls = [(7, DetailKind.events)] := by
  decide

theorem collectFixtureDetails_fail (O : Oracle) (fid : ℕ) (k : DetailKind)
    (hk : O fid k = none) :
    (collectFixtureDetails O fid).1 = emptyDetails := by
  unfold collectFixtureDetails
  cases hev : O fid DetailKind.events with
  | none => rfl
  | some ev =>
    cases hlu : O fid DetailKind.lineups with
    | none => rfl
    | some lu =>
      cases hst : O fid DetailKind.statistics with
      | none => rfl
      | some stt =>
        cases hpl : O fid DetailKind.players with
        | none => rfl
        | some pl =>
            exfalso
            cases k
            · rw [hk] at hev; cases hev
            · rw [hk] at hlu; cases hlu
            · rw [hk] at hst; cases hst
            · rw [hk] at hpl; cases hpl

/-- C6 amended: a failed detail fetch is caught inside
`collect_fixture_details` (which logs and returns `{}`), and the fixture
is still included in the pending batch, with empty sub-resource arrays;
every other non-skipped fixture of the chunk is also staged, so the chunk
and the run continue. -/
theorem detail_failure_fixture_still_written (O : Oracle) (S : Store)
    (chunk : List Fixture) (f : Fixture) (k : DetailKind)
    (hf : f ∈ chunk) (hns : notSkipped S f = true) (hk : O f.id k = none) :
    (f.id, recordOf f emptyDetails) ∈ (processChunk O S chunk).1
    ∧ ∀ g ∈ chunk, notSkipped S g = true
        → ∃ r, (g.id, r) ∈ (processChunk O S chunk).1 := by
  rw [processChunk_eq]
  constructor
  · have hmem := (mem_chunkBatch O S chunk
      (f.id, recordOf f (collectFixtureDetails O f.id).1)).mpr ⟨f, hf, hns, rfl⟩
    have hfail := collectFixtureDetails_fail O f.id k hk
    rw [hfail] at hmem
    exact hmem
  · intro g hg hgns
    exact ⟨recordOf g (collectFixtureDetails O g.id).1,
      (mem_chunkBatch O S chunk _).mpr ⟨g, hg, hgns, rfl⟩⟩

/-- Witness for `detail_failure_fixture_still_written`. -/
theorem detail_failure_fixture_still_written_witness :
    ((7 : ℕ), recordOf ⟨7, "2024-09-01", 0⟩ emptyDetails)
      ∈ (processChunk (fun _ _ => none) (fun _ => none)
          [⟨7, "2024-09-01", 0⟩]).1 :=
  (detail_failure_fixture_still_written (fun _ _ => none) (fun _ => none)
    [⟨7, "2024-09-01", 0⟩] ⟨7, "2024-09-01", 0⟩ DetailKind.events
    (by decide) (by decide) rfl).1

/-- 21 fixtures with ids 1..21; id 21 is already stored with a matching
date, so the second chunk stages nothing. -/
def c7Fixtures : List Fixture :=
  (List.range 21).map (fun i => ⟨i + 1, "2024-08-01", 0⟩)

def c7Store : Store :=
  fun k => if k = 21 then some ⟨⟨21, "2024-08-01", 0⟩, emptyDetails⟩ else none

def c7Run : RunState := runPipeline (fun _ _ => some [1]) c7Store c7Fixtures

/-- C7 counterexample: the commit condition is the cumulative
`total_processed > 0`, not the size of the pending unit, so the second
chunk (whose pending unit is empty because its only fixture is skipped)
still triggers `batch.commit()`: the chunk log is
[(20 staged, committed), (0 staged, committed)]. -/
theorem empty_batch_commit_cex :
    ¬ (∀ e ∈ c7Run.chunkLog, e.2.2 = true ↔ e.1 ≠ [])
    ∧ c7Run.chunkLog.map (fun e => (e.1.length, e.2.2))
        = [(20, true), (0, true)] := by
  decide

def commitCondOk (e : List (ℕ × StoredRecord) × ℕ × Bool) : Prop :=
  e.2.2 = true ↔ (e.1 ≠ [] ∨ 0 < e.2.1)

theorem foldStep_chunkLog_cond (O : Oracle) (total : ℕ)
    (cl : List (List Fixture)) :
    ∀ st : RunState, (∀ e ∈ st.chunkLog, commitCondOk e) →
      ∀ e ∈ (cl.foldl (stepChunk O total) st).chunkLog, commitCondOk e := by
  induction cl with
  | nil => intro st h; exact h
  | cons c cl' ih =>
      intro st h
      rw [List.foldl_cons]
      apply ih
      intro e he
      rw [stepChunk_chunkLog_eq] at he
      rcases List.mem_append.mp he with he1 | he2
      · exact h e he1
      · rw [List.mem_singleton] at he2
        subst he2
        unfold commitCondOk
        simp only [decide_eq_true_eq]
        constructor
        · intro hpos
          by_cases hb : chunkBatch O st.store c = []
          · right
            rw [hb] at hpos
            simpa using hpos
          · left; exact hb
        · rintro (hb | hp)
          · have := List.length_pos.mpr hb
            omega
          · omega

/-- C7 amended: after each chunk, `batch.commit()` is called exactly when
the cumulative processed counter is positive, i.e. when the chunk's
pending unit is non-empty OR some earlier chunk already processed a
fixture.  A non-empty pending unit is therefore always committed, but an
empty pending unit still produces a batch-write call whenever an earlier
chunk staged records. -/
theorem chunk_commit_condition (O : Oracle) (S : Store)
    (fixtures : List Fixture) :
    ∀ e ∈ (runPipeline O S fixtures).chunkLog,
      e.2.2 = true ↔ (e.1 ≠ [] ∨ 0 < e.2.1) := by
  intro e he
  unfold runPipeline at he
  by_cases hemp : fixtures.isEmpty
  · rw [if_pos hemp] at he
    cases he
  · rw [if_neg hemp] at he
    exact foldStep_chunkLog_cond O fixtures.length (chunksOf 20 fixtures)
      (initState S) (by intro e' he'; cases he') e he

/-- Witness for `chunk_commit_condition` on a one-fixture run. -/
theorem chunk_commit_condition_witness :
    (([((7 : ℕ), recordOf ⟨7, "2024-09-02", 0⟩ ⟨[5], [5], [5], [5]⟩)],
        (0 : ℕ), true) :
        List (ℕ × StoredRecord) × ℕ × Bool).2.2 = true
      ↔ (([((7 : ℕ), recordOf ⟨7, "2024-09-02", 0⟩ ⟨[5], [5], [5], [5]⟩)] :
            List (ℕ × StoredRecord)) ≠ [] ∨ (0 : ℕ) < 0) :=
  chunk_commit_condition (fun _ _ => some [5]) (fun _ => none)
    [⟨7, "2024-09-02", 0⟩]
    ([((7 : ℕ), recordOf ⟨7, "2024-09-02", 0⟩ ⟨[5], [5], [5], [5]⟩)],
      (0 : ℕ), true)
    (by decide)

/-- Outcome of one `requests.get` call: an HTTP status with a parsed JSON
body, or a raised transport/parse exception. -/
inductive HttpOutcome (α : Type) where
  | status (code : ℕ) (body : α)
  | exn
deriving DecidableEq

/-- State threaded through `_batch_request`: the accumulated results
mapping, the cache, the wall clock (advanced by the `time.sleep` calls:
60 s for a 429 backoff, 0.2 s between successive outbound calls), the
trace of HTTP requests `(param, attempt)` actually issued, and the list
of backoff sleeps performed. -/
structure BRState (π α : Type) where
  results : List (π × α)
  cache : CacheStore α
  time : ℚ
  requests : List (π × ℕ)
  sleeps : List ℚ

/-- The non-cached path of one `_batch_request` iteration: issue the GET;
on 200 cache and record; on 429 sleep 60 s and retry exactly once (the
retry is recorded only if it returns 200); on any other status or an
exception, record nothing and continue. -/
def brMiss {π α : Type} (keyOf : π → CKey) (fetch : π → ℕ → HttpOutcome α)
    (st : BRState π α) (p : π) : BRState π α :=
  match fetch p 0 with
  | HttpOutcome.exn => { st with requests := st.requests ++ [(p, 0)] }
  | HttpOutcome.status code body =>
      if code = 200 then
        { st with
          cache := setCache st.cache st.time (keyOf p) body CacheType.short,
          results := st.results ++ [(p, body)],
          requests := st.requests ++ [(p, 0)],
          time := st.time + 1 / 5 }
      else if code = 429 then
        match fetch p 1 with
        | HttpOutcome.exn =>
            { st with
              requests := st.requests ++ [(p, 0), (p, 1)],
              sleeps := st.sleeps ++ [60],
              time := st.time + 60 }
        | HttpOutcome.status code2 body2 =>
            if code2 = 200 then
              { st with
                cache := setCache st.cache (st.time + 60) (keyOf p) body2
                  CacheType.short,
                results := st.results ++ [(p, body2)],
                requests := st.requests ++ [(p, 0), (p, 1)],
                sleeps := st.sleeps ++ [60],
                time := st.time + 60 + 1 / 5 }
            else
              { st with
                requests := st.requests ++ [(p, 0), (p, 1)],
                sleeps := st.sleeps ++ [60],
                time := st.time + 60 + 1 / 5 }
      else
        { st with
          requests := st.requests ++ [(p, 0)],
          time := st.time + 1 / 5 }

/-- One iteration of the `for params in params_list` loop of
`_batch_request`: look the key up in the short tier (evicting if
expired), use the cached payload only if it is truthy
(`if cached_data:`), otherwise fall through to the HTTP path. -/
def brStep {π α : Type} (keyOf : π → CKey) (fetch : π → ℕ → HttpOutcome α)
    (truthy : α → Bool) (st : BRState π α) (p : π) : BRState π α :=
  let g := getFromCache st.cache st.time (keyOf p) CacheType.short
  match g.1 with
  | some v =>
      if truthy v then
        { st with cache := g.2, results := st.results ++ [(p, v)] }
      else brMiss keyOf fetch { st with cache := g.2 } p
  | none => brMiss keyOf fetch { st with cache := g.2 } p

/-- `FootballAPI._batch_request` over a list of parameter sets. -/
def batchRequest {π α : Type} (keyOf : π → CKey)
    (fetch : π → ℕ → HttpOutcome α) (truthy : α → Bool)
    (cache0 : CacheStore α) (t0 : ℚ) (ps : List π) : BRState π α :=
  ps.foldl (brStep keyOf fetch truthy) ⟨[], cache0, t0, [], []⟩

/-- `_batch_request` with the string cache keys
`f"{url}_{json.dumps(params)}"`, parameter sets abstracted to `ℕ`. -/
def batchRequestHttp (url : String) {α : Type}
    (fetch : ℕ → ℕ → HttpOutcome α) (truthy : α → Bool)
    (cache0 : CacheStore α) (t0 : ℚ) (ps : List ℕ) : BRState ℕ α :=
  batchRequest (CKey.batch url) fetch truthy cache0 t0 ps

theorem setCache_ne {α : Type} (c : CacheStore α) (now : ℚ) (key : CKey)
    (v : α) (ct : CacheType) (t : CacheType) (k : CKey)
    (h : ¬(t = ct ∧ k = key)) : setCache c now key v ct t k = c t k := by
  simp [setCache, h]

theorem getFromCache_snd_ne {α : Type} (c : CacheStore α) (now : ℚ)
    (key : CKey) (ct : CacheType) (t : CacheType) (k : CKey)
    (h : ¬(t = ct ∧ k = key)) :
    (getFromCache c now key ct).2 t k = c t k := by
  simp only [getFromCache]
  cases hc : c ct key with
  | none => rfl
  | some vts =>
      obtain ⟨v, ts⟩ := vts
      by_cases hlt : now - ts < tierDuration ct
      · simp [hlt]
      · simp [hlt, h]

theorem getFromCache_none {α : Type} (c : CacheStore α) (now : ℚ)
    (key : CKey) (ct : CacheType) (hc : c ct key = none) :
    getFromCache c now key ct = (none, c) := by
  simp [getFromCache, hc]

theorem getFromCache_fresh {α : Type} (c : CacheStore α) (now : ℚ)
    (key : CKey) (ct : CacheType) (v : α) (ts : ℚ)
    (hc : c ct key = some (v, ts)) (hlt : now - ts < tierDuration ct) :
    getFromCache c now key ct = (some v, c) := by
  simp [getFromCache, hc, hlt]

theorem brMiss_shape {π α : Type} (keyOf : π → CKey)
    (fetch : π → ℕ → HttpOutcome α) (st : BRState π α) (p : π) :
    ∃ (rtl : List (π × α)) (qtl : List (π × ℕ)) (stl : List ℚ),
      (brMiss keyOf fetch st p).results = st.results ++ rtl
      ∧ (brMiss keyOf fetch st p).requests = st.requests ++ qtl
      ∧ (brMiss keyOf fetch st p).sleeps = st.sleeps ++ stl
      ∧ (∀ x ∈ rtl, x.1 = p) ∧ (∀ x ∈ qtl, x.1 = p)
      ∧ ∀ (t : CacheType) (k : CKey), ¬(t = CacheType.short ∧ k = keyOf p) →
          (brMiss keyOf fetch st p).cache t k = st.cache t k := by
  unfold brMiss
  cases h0 : fetch p 0 with
  | exn =>
      exact ⟨[], [(p, 0)], [], by simp, rfl, by simp, by simp, by simp,
        fun t k h => rfl⟩
  | status code body =>
      dsimp only
      by_cases h200 : code = 200
      · rw [if_pos h200]
        refine ⟨[(p, body)], [(p, 0)], [], rfl, rfl, by simp, by simp,
          by simp, ?_⟩
        intro t k h
        exact setCache_ne st.cache st.time (keyOf p) body CacheType.short t k h
      · rw [if_neg h200]
        by_cases h429 : code = 429
        · rw [if_pos h429]
          cases h1 : fetch p 1 with
          | exn =>
              exact ⟨[], [(p, 0), (p, 1)], [60], by simp, rfl, rfl, by simp,
                by simp, fun t k h => rfl⟩
          | status code2 body2 =>
              dsimp only
              by_cases h2200 : code2 = 200
              · rw [if_pos h2200]
                refine ⟨[(p, body2)], [(p, 0), (p, 1)], [60], rfl, rfl, rfl,
                  by simp, by simp, ?_⟩
                intro t k h
                exact setCache_ne st.cache (st.time + 60) (keyOf p) body2
                  CacheType.short t k h
              · rw [if_neg h2200]
                exact ⟨[], [(p, 0), (p, 1)], [60], by simp, rfl, rfl, by simp,
                  by simp, fun t k h => rfl⟩
        · rw [if_neg h429]
          exact ⟨[], [(p, 0)], [], by simp, rfl, by simp, by simp, by simp,
            fun t k h => rfl⟩

theorem brStep_shape {π α : Type} (keyOf : π → CKey)
    (fetch : π → ℕ → HttpOutcome α) (truthy : α → Bool) (st : BRState π α)
    (p : π) :
    ∃ (rtl : List (π × α)) (qtl : List (π × ℕ)) (stl : List ℚ),
      (brStep keyOf fetch truthy st p).results = st.results ++ rtl
      ∧ (brStep keyOf fetch truthy st p).requests = st.requests ++ qtl
      ∧ (brStep keyOf fetch truthy st p).sleeps = st.sleeps ++ stl
      ∧ (∀ x ∈ rtl, x.1 = p) ∧ (∀ x ∈ qtl, x.1 = p)
      ∧ ∀ (t : CacheType) (k : CKey), ¬(t = CacheType.short ∧ k = keyOf p) →
          (brStep keyOf fetch truthy st p).cache t k = st.cache t k := by
  unfold brStep
  dsimp only
  cases hg : (getFromCache st.cache st.time (keyOf p) CacheType.short).1 with
  | some v =>
      dsimp only
      by_cases htr : truthy v
      · rw [if_pos htr]
        refine ⟨[(p, v)], [], [], rfl, by simp, by simp, by simp, by simp, ?_⟩
        intro t k h
        show (getFromCache st.cache st.time (keyOf p) CacheType.short).2 t k
          = st.cache t k
        exact getFromCache_snd_ne st.cache st.time (keyOf p) CacheType.short
          t k h
      · rw [if_neg htr]
        obtain ⟨rtl, qtl, stl, hr, hq, hs, hkr, hkq, hcc⟩ :=
          brMiss_shape keyOf fetch
            { st with
              cache := (getFromCache st.cache st.time (keyOf p)
                CacheType.short).2 } p
        refine ⟨rtl, qtl, stl, hr, hq, hs, hkr, hkq, ?_⟩
        intro t k h
        rw [hcc t k h]
        exact getFromCache_snd_ne st.cache st.time (keyOf p) CacheType.short
          t k h
  | none =>
      dsimp only
      obtain ⟨rtl, qtl, stl, hr, hq, hs, hkr, hkq, hcc⟩ :=
        brMiss_shape keyOf fetch
          { st with
            cache := (getFromCache st.cache st.time (keyOf p)
              CacheType.short).2 } p
      refine ⟨rtl, qtl, stl, hr, hq, hs, hkr, hkq, ?_⟩
      intro t k h
      rw [hcc t k h]
      exact getFromCache_snd_ne st.cache st.time (keyOf p) CacheType.short
        t k h

theorem brFold_shape {π α : Type} (keyOf : π → CKey)
    (fetch : π → ℕ → HttpOutcome α) (truthy : α → Bool) (l : List π) :
    ∀ st : BRState π α,
      ∃ (rtl : List (π × α)) (qtl : List (π × ℕ)) (stl : List ℚ),
        (l.foldl (brStep keyOf fetch truthy) st).results = st.results ++ rtl
        ∧ (l.foldl (brStep keyOf fetch truthy) st).requests
            = st.requests ++ qtl
        ∧ (l.foldl (brStep keyOf fetch truthy) st).sleeps = st.sleeps ++ stl
        ∧ (∀ x ∈ rtl, x.1 ∈ l) ∧ (∀ x ∈ qtl, x.1 ∈ l)
        ∧ ∀ (t : CacheType) (k : CKey),
            (∀ q ∈ l, ¬(t = CacheType.short ∧ k = keyOf q)) →
            (l.foldl (brStep keyOf fetch truthy) st).cache t k
              = st.cache t k := by
  induction l with
  | nil =>
      intro st
      exact ⟨[], [], [], by simp, by simp, by simp, by simp, by simp,
        fun t k h => rfl⟩
  | cons q l' ih =>
      intro st
      obtain ⟨rtl1, qtl1, stl1, hr1, hq1, hs1, hkr1, hkq1, hc1⟩ :=
        brStep_shape keyOf fetch truthy st q
      obtain ⟨rtl2, qtl2, stl2, hr2, hq2, hs2, hkr2, hkq2, hc2⟩ :=
        ih (brStep keyOf fetch truthy st q)
      refine ⟨rtl1 ++ rtl2, qtl1 ++ qtl2, stl1 ++ stl2, ?_, ?_, ?_, ?_, ?_, ?_⟩
      · rw [List.foldl_cons, hr2, hr1, List.append_assoc]
      · rw [List.foldl_cons, hq2, hq1, List.append_assoc]
      · rw [List.foldl_cons, hs2, hs1, List.append_assoc]
      · intro x hx
        rcases List.mem_append.mp hx with h | h
        · rw [hkr1 x h]
          exact List.mem_cons_self _ _
        · exact List.mem_cons_of_mem _ (hkr2 x h)
      · intro x hx
        rcases List.mem_append.mp hx with h | h
        · rw [hkq1 x h]
          exact List.mem_cons_self _ _
        · exact List.mem_cons_of_mem _ (hkq2 x h)
      · intro t k h
        rw [List.foldl_cons,
          hc2 t k (fun q' hq' => h q' (List.mem_cons_of_mem _ hq')),
          hc1 t k (h q (List.mem_cons_self _ _))]

theorem brMiss_req0 {π α : Type} (keyOf : π → CKey)
    (fetch : π → ℕ → HttpOutcome α) (st : BRState π α) (p : π) :
    (p, 0) ∈ (brMiss keyOf fetch st p).requests := by
  unfold brMiss
  cases h0 : fetch p 0 with
  | exn =>
      dsimp only
      simp
  | status code body =>
      dsimp only
      by_cases h200 : code = 200
      · rw [if_pos h200]
        simp
      · rw [if_neg h200]
        by_cases h429 : code = 429
        · rw [if_pos h429]
          cases h1 : fetch p 1 with
          | exn => simp
          | status code2 body2 =>
              dsimp only
              by_cases h2 : code2 = 200
              · rw [if_pos h2]
                simp
              · rw [if_neg h2]
                simp
        · rw [if_neg h429]
          simp

theorem brStep_429_fail {π α : Type} (keyOf : π → CKey)
    (fetch : π → ℕ → HttpOutcome α) (truthy : α → Bool) (st : BRState π α)
    (p : π) (b : α)
    (hc : st.cache CacheType.short (keyOf p) = none)
    (h0 : fetch p 0 = HttpOutcome.status 429 b)
    (h1 : ∀ b2, fetch p 1 ≠ HttpOutcome.status 200 b2) :
    (brStep keyOf fetch truthy st p).results = st.results
    ∧ (brStep keyOf fetch truthy st p).requests
        = st.requests ++ [(p, 0), (p, 1)]
    ∧ (brStep keyOf fetch truthy st p).sleeps = st.sleeps ++ [60] := by
  have hget := getFromCache_none st.cache st.time (keyOf p) CacheType.short hc
  unfold brStep
  dsimp only
  rw [hget]
  dsimp only
  unfold brMiss
  rw [h0]
  dsimp only
  rw [if_neg (by norm_num : ¬ (429 : ℕ) = 200), if_pos rfl]
  cases h1' : fetch p 1 with
  | exn => exact ⟨rfl, rfl, rfl⟩
  | status code2 body2 =>
      dsimp only
      have hne : ¬ code2 = 200 := by
        intro hh
        exact h1 body2 (by rw [h1', hh])
      rw [if_neg hne]
      exact ⟨rfl, rfl, rfl⟩

theorem brStep_200 {π α : Type} (keyOf : π → CKey)
    (fetch : π → ℕ → HttpOutcome α) (truthy : α → Bool) (st : BRState π α)
    (p : π) (b : α)
    (hc : st.cache CacheType.short (keyOf p) = none)
    (h0 : fetch p 0 = HttpOutcome.status 200 b) :
    (brStep keyOf fetch truthy st p).results = st.results ++ [(p, b)]
    ∧ (brStep keyOf fetch truthy st p).requests = st.requests ++ [(p, 0)] := by
  have hget := getFromCache_none st.cache st.time (keyOf p) CacheType.short hc
  unfold brStep
  dsimp only
  rw [hget]
  dsimp only
  unfold brMiss
  rw [h0]
  dsimp only
  rw [if_pos rfl]
  exact ⟨rfl, rfl⟩

theorem batch_key_ne (url : String) (p q : ℕ) (hqp : q ≠ p) :
    ¬(CacheType.short = CacheType.short ∧ CKey.batch url p = CKey.batch url q) := by
  rintro ⟨-, hk⟩
  injection hk with hu hp'
  exact hqp hp'.symm

/-- C5: for a parameter set `p` whose first request returns HTTP 429, the
client sleeps 60 seconds and retries exactly once (the request trace for
`p` is exactly [(p,0), (p,1)]); if the retry also fails (any non-200
status or an exception), `p` is absent from the returned result mapping
and no exception escapes — in particular any later parameter set `q`
whose request succeeds still yields its entry in the mapping. -/
theorem rate_limited_retry_once_then_drop (α : Type) (url : String)
    (fetch : ℕ → ℕ → HttpOutcome α) (truthy : α → Bool)
    (cache0 : CacheStore α) (t0 : ℚ) (pre post : List ℕ) (p : ℕ) (b : α)
    (hpre : p ∉ pre) (hpost : p ∉ post)
    (hc : cache0 CacheType.short (CKey.batch url p) = none)
    (h0 : fetch p 0 = HttpOutcome.status 429 b)
    (h1 : ∀ b2, fetch p 1 ≠ HttpOutcome.status 200 b2) :
    (batchRequestHttp url fetch truthy cache0 t0
        (pre ++ p :: post)).requests.filter (fun x => x.1 = p)
      = [(p, 0), (p, 1)]
    ∧ (∀ v, (p, v) ∉ (batchRequestHttp url fetch truthy cache0 t0
        (pre ++ p :: post)).results)
    ∧ (60 : ℚ) ∈ (batchRequestHttp url fetch truthy cache0 t0
        (pre ++ p :: post)).sleeps
    ∧ ∀ (q : ℕ) (b2 : α) (post1 post2 : List ℕ),
        post = post1 ++ q :: post2 → q ∉ pre → q ≠ p → q ∉ post1 →
        cache0 CacheType.short (CKey.batch url q) = none →
        fetch q 0 = HttpOutcome.status 200 b2 →
        (q, b2) ∈ (batchRequestHttp url fetch truthy cache0 t0
          (pre ++ p :: post)).results := by
  have hsplit : batchRequestHttp url fetch truthy cache0 t0 (pre ++ p :: post)
      = post.foldl (brStep (CKey.batch url) fetch truthy)
          (brStep (CKey.batch url) fetch truthy
            (pre.foldl (brStep (CKey.batch url) fetch truthy)
              ⟨[], cache0, t0, [], []⟩) p) := by
    unfold batchRequestHttp batchRequest
    rw [List.foldl_append, List.foldl_cons]
  obtain ⟨rtl1, qtl1, stl1, hr1, hq1, hs1, hkr1, hkq1, hc1⟩ :=
    brFold_shape (CKey.batch url) fetch truthy pre
      (⟨[], cache0, t0, [], []⟩ : BRState ℕ α)
  have hc1p : (pre.foldl (brStep (CKey.batch url) fetch truthy)
      ⟨[], cache0, t0, [], []⟩).cache CacheType.short (CKey.batch url p)
      = none := by
    rw [hc1 CacheType.short (CKey.batch url p)
      (fun q hq => batch_key_ne url p q (fun he => hpre (he ▸ hq)))]
    exact hc
  obtain ⟨e1, e2, e3⟩ := brStep_429_fail (CKey.batch url) fetch truthy
    (pre.foldl (brStep (CKey.batch url) fetch truthy)
      ⟨[], cache0, t0, [], []⟩) p b hc1p h0 h1
  obtain ⟨rtl3, qtl3, stl3, hr3, hq3, hs3, hkr3, hkq3, hc3⟩ :=
    brFold_shape (CKey.batch url) fetch truthy post
      (brStep (CKey.batch url) fetch truthy
        (pre.foldl (brStep (CKey.batch url) fetch truthy)
          ⟨[], cache0, t0, [], []⟩) p)
  refine ⟨?_, ?_, ?_, ?_⟩
  · rw [hsplit, hq3, e2, hq1]
    rw [List.filter_append, List.filter_append, List.filter_append]
    have hf1 : qtl1.filter (fun x => x.1 = p) = [] := by
      rw [List.filter_eq_nil_iff]
      intro x hx
      simp only [decide_eq_true_eq]
      intro hxe
      exact hpre (hxe ▸ hkq1 x hx)
    have hf3 : qtl3.filter (fun x => x.1 = p) = [] := by
      rw [List.filter_eq_nil_iff]
      intro x hx
      simp only [decide_eq_true_eq]
      intro hxe
      exact hpost (hxe ▸ hkq3 x hx)
    rw [hf1, hf3]
    simp
  · intro v hv
    rw [hsplit, hr3, e1, hr1] at hv
    simp only [List.nil_append] at hv
    rcases List.mem_append.mp hv with hvv | hvv
    · exact hpre (hkr1 (p, v) hvv)
    · exact hpost (hkr3 (p, v) hvv)
  · rw [hsplit, hs3, e3]
    exact List.mem_append.mpr (Or.inl (List.mem_append.mpr (Or.inr
      (List.mem_singleton.mpr rfl))))
  · intro q b2 post1 post2 hps hqpre hqp hqpost1 hcq h200q
    rw [hsplit, hps, List.foldl_append, List.foldl_cons]
    obtain ⟨rtl4, qtl4, stl4, hr4, hq4, hs4, hkr4, hkq4, hc4⟩ :=
      brFold_shape (CKey.batch url) fetch truthy post1
        (brStep (CKey.batch url) fetch truthy
          (pre.foldl (brStep (CKey.batch url) fetch truthy)
            ⟨[], cache0, t0, [], []⟩) p)
    obtain ⟨rtlp, qtlp, stlp, hrp, hqp2, hsp, hkrp, hkqp, hcp⟩ :=
      brStep_shape (CKey.batch url) fetch truthy
        (pre.foldl (brStep (CKey.batch url) fetch truthy)
          ⟨[], cache0, t0, [], []⟩) p
    have hcq3 : (post1.foldl (brStep (CKey.batch url) fetch truthy)
        (brStep (CKey.batch url) fetch truthy
          (pre.foldl (brStep (CKey.batch url) fetch truthy)
            ⟨[], cache0, t0, [], []⟩) p)).cache CacheType.short
        (CKey.batch url q) = none := by
      rw [hc4 CacheType.short (CKey.batch url q)
        (fun q' hq' => batch_key_ne url q q' (fun he => hqpost1 (he ▸ hq')))]
      rw [hcp CacheType.short (CKey.batch url q)
        (batch_key_ne url q p (fun he => hqp he.symm))]
      rw [hc1 CacheType.short (CKey.batch url q)
        (fun q' hq' => batch_key_ne url q q' (fun he => hqpre (he ▸ hq')))]
      exact hcq
    obtain ⟨f1, f2⟩ := brStep_200 (CKey.batch url) fetch truthy
      (post1.foldl (brStep (CKey.batch url) fetch truthy)
        (brStep (CKey.batch url) fetch truthy
          (pre.foldl (brStep (CKey.batch url) fetch truthy)
            ⟨[], cache0, t0, [], []⟩) p)) q b2 hcq3 h200q
    obtain ⟨rtl5, qtl5, stl5, hr5, hq5, hs5, hkr5, hkq5, hc5⟩ :=
      brFold_shape (CKey.batch url) fetch truthy post2
        (brStep (CKey.batch url) fetch truthy
          (post1.foldl (brStep (CKey.batch url) fetch truthy)
            (brStep (CKey.batch url) fetch truthy
              (pre.foldl (brStep (CKey.batch url) fetch truthy)
                ⟨[], cache0, t0, [], []⟩) p)) q)
    rw [hr5, f1]
    exact List.mem_append.mpr (Or.inl (List.mem_append.mpr (Or.inr
      (List.mem_singleton.mpr rfl))))

/-- Concrete fetch oracle: param 5 gets 429 then 500; any other param
gets 200 with payload [3]. -/
def c5fetch : ℕ → ℕ → HttpOutcome (List ℕ) := fun n a =>
  if n = 5 then
    (if a = 0 then HttpOutcome.status 429 [] else HttpOutcome.status 500 [])
  else HttpOutcome.status 200 [3]

/-- Witness for `rate_limited_retry_once_then_drop` on params `[5, 7]`. -/
theorem rate_limited_retry_once_then_drop_witness :
    (batchRequestHttp "fx" c5fetch (fun xs => !xs.isEmpty)
        (fun _ _ => none) 0 [5, 7]).requests.filter
        (fun x => x.1 = 5) = [(5, 0), (5, 1)]
    ∧ ((7 : ℕ), ([3] : List ℕ)) ∈ (batchRequestHttp "fx" c5fetch
        (fun xs => !xs.isEmpty) (fun _ _ => none) 0 [5, 7]).results := by
  have h := rate_limited_retry_once_then_drop (List ℕ) "fx" c5fetch
    (fun xs => !xs.isEmpty) (fun _ _ => none) 0 [] [7] 5 []
    (by simp) (by simp) rfl rfl
    (by
      intro b2 hb
      simp [c5fetch] at hb)
  exact ⟨h.1, h.2.2.2 7 [3] [] [] rfl (by simp) (by norm_num) (by simp)
    rfl rfl⟩

theorem brStep_falsy_hit_request {π α : Type} (keyOf : π → CKey)
    (fetch : π → ℕ → HttpOutcome α) (truthy : α → Bool) (st : BRState π α)
    (p : π) (v : α) (ts : ℚ)
    (hc : st.cache CacheType.short (keyOf p) = some (v, ts))
    (hfresh : st.time - ts < tierDuration CacheType.short)
    (hfalsy : truthy v = false) :
    (p, 0) ∈ (brStep keyOf fetch truthy st p).requests := by
  have hget := getFromCache_fresh st.cache st.time (keyOf p) CacheType.short
    v ts hc hfresh
  unfold brStep
  dsimp only
  rw [hget]
  dsimp only
  rw [hfalsy]
  rw [if_neg (by simp)]
  exact brMiss_req0 keyOf fetch _ p

def standingsURL : String := "standings"

/-- The fetch-and-cache path of `FootballAPI.fetch_standings` for one
league: run `_batch_request` with `{"league": league, "season": 2024}`,
read the result mapping, and cache/return the payload only when it is
truthy (`if data:`); otherwise return `None`. -/
def fetchStandingsMiss {α : Type} (fetch : ℕ → ℕ → HttpOutcome α)
    (truthy : α → Bool) (c : CacheStore α) (t0 : ℚ) (league : ℕ) :
    Option α × BRState ℕ α :=
  let st := batchRequest (CKey.batch standingsURL) fetch truthy c t0 [league]
  match (st.results.find? (fun x => x.1 = league)).map (fun x => x.2) with
  | some d =>
      if truthy d then
        (some d, { st with
          cache := setCache st.cache st.time (CKey.standings league) d
            CacheType.medium })
      else (none, st)
  | none => (none, st)

/-- `FootballAPI.fetch_standings`, single-league branch: consult the
medium tier first (`if cached_data:` — a truthiness test), else fetch. -/
def fetchStandingsOne {α : Type} (fetch : ℕ → ℕ → HttpOutcome α)
    (truthy : α → Bool) (cache0 : CacheStore α) (t0 : ℚ) (league : ℕ) :
    Option α × BRState ℕ α :=
  let g := getFromCache cache0 t0 (CKey.standings league) CacheType.medium
  match g.1 with
  | some v =>
      if truthy v then (some v, ⟨[], g.2, t0, [], []⟩)
      else fetchStandingsMiss fetch truthy g.2 t0 league
  | none => fetchStandingsMiss fetch truthy g.2 t0 league

theorem fetchStandingsMiss_requests {α : Type} (fetch : ℕ → ℕ → HttpOutcome α)
    (truthy : α → Bool) (c : CacheStore α) (t0 : ℚ) (league : ℕ) :
    (fetchStandingsMiss fetch truthy c t0 league).2.requests
      = (batchRequest (CKey.batch standingsURL) fetch truthy c t0
          [league]).requests := by
  unfold fetchStandingsMiss
  dsimp only
  cases hfind : (batchRequest (CKey.batch standingsURL) fetch truthy c t0
      [league]).results.find? (fun x => x.1 = league) with
  | none => rfl
  | some pr =>
      simp only [Option.map_some']
      by_cases htr : truthy pr.2
      · rw [if_pos htr]
      · rw [if_neg htr]

/-- C9: a cached payload that is falsy (empty list/dict) is treated as a
cache miss, because `_batch_request` and `fetch_standings` test the
cached value with `if cached_data:` rather than for presence.  Even with
an unexpired entry for the key, a fresh HTTP request is issued
(`_batch_request`), and `fetch_standings` re-runs its fetch body. -/
theorem falsy_cached_value_is_refetched :
    (∀ (α : Type) (url : String) (fetch : ℕ → ℕ → HttpOutcome α)
        (truthy : α → Bool) (cache0 : CacheStore α) (t0 ts : ℚ) (v : α)
        (p : ℕ) (rest : List ℕ),
      cache0 CacheType.short (CKey.batch url p) = some (v, ts) →
      truthy v = false → t0 - ts < 900 →
      (p, 0) ∈ (batchRequestHttp url fetch truthy cache0 t0
        (p :: rest)).requests)
    ∧ (∀ (α : Type) (fetch : ℕ → ℕ → HttpOutcome α) (truthy : α → Bool)
        (cache0 : CacheStore α) (t0 ts : ℚ) (v : α) (L : ℕ),
      cache0 CacheType.medium (CKey.standings L) = some (v, ts) →
      truthy v = false → t0 - ts < 21600 →
      cache0 CacheType.short (CKey.batch standingsURL L) = none →
      (L, 0) ∈ (fetchStandingsOne fetch truthy cache0 t0 L).2.requests) := by
  constructor
  · intro α url fetch truthy cache0 t0 ts v p rest hc hf hfresh
    unfold batchRequestHttp batchRequest
    rw [List.foldl_cons]
    obtain ⟨rtl, qtl, stl, hr, hq, hs, hkr, hkq, hcc⟩ :=
      brFold_shape (CKey.batch url) fetch truthy rest
        (brStep (CKey.batch url) fetch truthy ⟨[], cache0, t0, [], []⟩ p)
    rw [hq]
    exact List.mem_append.mpr (Or.inl (brStep_falsy_hit_request
      (CKey.batch url) fetch truthy ⟨[], cache0, t0, [], []⟩ p v ts hc
      hfresh hf))
  · intro α fetch truthy cache0 t0 ts v L hcm hf hfresh hcs
    have hget := getFromCache_fresh cache0 t0 (CKey.standings L)
      CacheType.medium v ts hcm hfresh
    unfold fetchStandingsOne
    dsimp only
    rw [hget]
    dsimp only
    rw [hf]
    rw [if_neg (by simp)]
    rw [fetchStandingsMiss_requests]
    unfold batchRequest
    rw [List.foldl_cons]
    show (L, 0) ∈ (brStep (CKey.batch standingsURL) fetch truthy
      ⟨[], cache0, t0, [], []⟩ L).requests
    have hget2 := getFromCache_none cache0 t0 (CKey.batch standingsURL L)
      CacheType.short hcs
    unfold brStep
    dsimp only
    rw [hget2]
    dsimp only
    exact brMiss_req0 (CKey.batch standingsURL) fetch _ L

/-- An unexpired short-tier entry holding a falsy payload for batch key
`("fx", 9)`. -/
def c9cacheA : CacheStore (List ℕ) :=
  fun t k =>
    if t = CacheType.short ∧ k = CKey.batch "fx" 9 then some ([], 0) else none

/-- An unexpired medium-tier entry holding a falsy payload for
`standings_39`. -/
def c9cacheB : CacheStore (List ℕ) :=
  fun t k =>
    if t = CacheType.medium ∧ k = CKey.standings 39 then some ([], 0)
    else none

/-- Witness for `falsy_cached_value_is_refetched`. -/
theorem falsy_cached_value_is_refetched_witness :
    ((9 : ℕ), (0 : ℕ)) ∈ (batchRequestHttp "fx"
        (fun _ _ => HttpOutcome.status 200 [4]) (fun xs => !xs.isEmpty)
        c9cacheA 10 [9]).requests
    ∧ ((39 : ℕ), (0 : ℕ)) ∈ (fetchStandingsOne
        (fun _ _ => HttpOutcome.status 200 [4]) (fun xs => !xs.isEmpty)
        c9cacheB 10 39).2.requests :=
  ⟨falsy_cached_value_is_refetched.1 (List ℕ) "fx"
      (fun _ _ => HttpOutcome.status 200 [4]) (fun xs => !xs.isEmpty)
      c9cacheA 10 0 [] 9 [] (by decide) rfl (by norm_num),
    falsy_cached_value_is_refetched.2 (List ℕ)
      (fun _ _ => HttpOutcome.status 200 [4]) (fun xs => !xs.isEmpty)
      c9cacheB 10 0 [] 39 (by decide) rfl (by norm_num) (by decide)⟩

/-- A fixture as consumed by `fetch_next_fixtures`: the pipeline reads
`fix['league']['round']`; `date` (chronological position, abstracted to a
natural number) is carried for the specification of "soonest round" but
never inspected by the code. -/
structure RFixture where
  fid : ℕ
  round : String
  date : ℕ
deriving DecidableEq

/-- The parameter dictionary
`{'league': league, 'season': season, 'next': 10}`. -/
structure NextParam where
  league : ℕ
  season : String
  next : ℕ
deriving DecidableEq

def nextKeyOf (q : NextParam) : CKey := CKey.nextBatch q.league q.season q.next

/-- One step of the Python-dict grouping
`rounds.setdefault(round, []).append(fix)` (insertion order preserved:
an existing key is updated in place, a new key is appended). -/
def addRound : List (String × List RFixture) → RFixture →
    List (String × List RFixture)
  | [], f => [(f.round, [f])]
  | (k, g) :: rest, f =>
      if f.round = k then (k, g ++ [f]) :: rest
      else (k, g) :: addRound rest f

/-- `rounds = {}` then the insertion loop of `fetch_next_fixtures`. -/
def groupRounds (l : List RFixture) : List (String × List RFixture) :=
  l.foldl addRound []

/-- The fetch-and-group path of `fetch_next_fixtures`: batch-request the
next-10 window, default the payload to `[]`, and if non-empty group by
round label and return `next(iter(rounds.values()))` — the first-inserted
group. -/
def nextMiss (fetch : NextParam → ℕ → HttpOutcome (List RFixture))
    (c : CacheStore (List RFixture)) (t0 : ℚ) (league : ℕ)
    (season : String) : List RFixture × BRState NextParam (List RFixture) :=
  let st := batchRequest nextKeyOf fetch (fun xs => !xs.isEmpty) c t0
    [⟨league, season, 10⟩]
  let data := ((st.results.find? (fun x => x.1 = (⟨league, season, 10⟩ :
    NextParam))).map (fun x => x.2)).getD []
  if data.isEmpty then ([], st)
  else
    let nextRound := (((groupRounds data).head?).map (fun x => x.2)).getD []
    (nextRound, { st with
      cache := setCache st.cache st.time (CKey.nextFixtures league season)
        nextRound CacheType.short })

/-- `FootballAPI.fetch_next_fixtures`: short-tier cache (truthiness
check), else fetch the next-10 window and return the first round group. -/
def fetchNextFixtures (fetch : NextParam → ℕ → HttpOutcome (List RFixture))
    (cache0 : CacheStore (List RFixture)) (t0 : ℚ) (league : ℕ)
    (season : String) : List RFixture × BRState NextParam (List RFixture) :=
  let g := getFromCache cache0 t0 (CKey.nextFixtures league season)
    CacheType.short
  match g.1 with
  | some v =>
      if v.isEmpty then nextMiss fetch g.2 t0 league season
      else (v, ⟨[], g.2, t0, [], []⟩)
  | none => nextMiss fetch g.2 t0 league season

theorem foldl_addRound_head (k : String) :
    ∀ (l : List RFixture) (g : List RFixture)
      (rest : List (String × List RFixture)),
      ∃ rest2, l.foldl addRound ((k, g) :: rest)
        = (k, g ++ l.filter (fun f => f.round = k)) :: rest2 := by
  intro l
  induction l with
  | nil => intro g rest; exact ⟨rest, by simp⟩
  | cons f l' ih =>
      intro g rest
      rw [List.foldl_cons]
      by_cases hf : f.round = k
      · have ha : addRound ((k, g) :: rest) f = (k, g ++ [f]) :: rest := by
          simp only [addRound]
          rw [if_pos hf]
        rw [ha]
        obtain ⟨rest2, h2⟩ := ih (g ++ [f]) rest
        refine ⟨rest2, ?_⟩
        rw [h2, List.filter_cons_of_pos (by simp [hf]), List.append_assoc]
        simp
      · have ha : addRound ((k, g) :: rest) f = (k, g) :: addRound rest f := by
          simp only [addRound]
          rw [if_neg hf]
        rw [ha]
        obtain ⟨rest2, h2⟩ := ih g (addRound rest f)
        refine ⟨rest2, ?_⟩
        rw [h2, List.filter_cons_of_neg (by simp [hf])]

theorem groupRounds_head (hd : RFixture) (tl : List RFixture) :
    ∃ rest2, groupRounds (hd :: tl)
      = (hd.round, (hd :: tl).filter (fun f => f.round = hd.round))
          :: rest2 := by
  unfold groupRounds
  rw [List.foldl_cons]
  have ha : addRound [] hd = [(hd.round, [hd])] := by simp only [addRound]
  rw [ha]
  obtain ⟨rest2, h2⟩ := foldl_addRound_head hd.round tl [hd] []
  refine ⟨rest2, ?_⟩
  rw [h2, List.filter_cons_of_pos (by simp)]
  simp

theorem nextMiss_eval (fetch : NextParam → ℕ → HttpOutcome (List RFixture))
    (c : CacheStore (List RFixture)) (t0 : ℚ) (league : ℕ) (season : String)
    (data : List RFixture)
    (hcb : c CacheType.short (CKey.nextBatch league season 10) = none)
    (h200 : fetch ⟨league, season, 10⟩ 0 = HttpOutcome.status 200 data)
    (hne : data ≠ []) :
    (nextMiss fetch c t0 league season).1
      = (((groupRounds data).head?).map (fun x => x.2)).getD []
    ∧ ((⟨league, season, 10⟩ : NextParam), (0 : ℕ))
        ∈ (nextMiss fetch c t0 league season).2.requests := by
  have hst : batchRequest nextKeyOf fetch (fun xs => !xs.isEmpty) c t0
      [⟨league, season, 10⟩]
      = brStep nextKeyOf fetch (fun xs => !xs.isEmpty) ⟨[], c, t0, [], []⟩
          ⟨league, season, 10⟩ := by
    unfold batchRequest
    rw [List.foldl_cons]
    rfl
  obtain ⟨hres, hreq⟩ := brStep_200 nextKeyOf fetch (fun xs => !xs.isEmpty)
    ⟨[], c, t0, [], []⟩ ⟨league, season, 10⟩ data hcb h200
  unfold nextMiss
  dsimp only
  rw [hst, hres]
  simp only [List.nil_append]
  rw [List.find?_cons_of_pos _ (by simp)]
  simp only [Option.map_some', Option.getD_some]
  rw [if_neg (by simpa using hne)]
  constructor
  · rfl
  · show (_, _) ∈ (brStep nextKeyOf fetch (fun xs => !xs.isEmpty)
      ⟨[], c, t0, [], []⟩ ⟨league, season, 10⟩).requests
    rw [hreq]
    simp

/-- C8: `fetch_next_fixtures` requests a fixed lookahead window of 10
upcoming matches (`'next': 10`), groups the returned fixtures by their
competition round label, and — when the remote list is chronologically
sorted, as the `next` endpoint returns it — the returned list is exactly
the fixtures of the soonest round (the round of a minimum-date fixture),
not simply a prefix of the response. -/
theorem next_fixtures_earliest_round
    (fetch : NextParam → ℕ → HttpOutcome (List RFixture))
    (cache0 : CacheStore (List RFixture)) (t0 : ℚ) (league : ℕ)
    (season : String) (data : List RFixture)
    (hck : cache0 CacheType.short (CKey.nextFixtures league season) = none)
    (hcb : cache0 CacheType.short (CKey.nextBatch league season 10) = none)
    (h200 : fetch ⟨league, season, 10⟩ 0 = HttpOutcome.status 200 data)
    (hne : data ≠ [])
    (hsorted : data.Sorted (fun a b => a.date ≤ b.date)) :
    ((⟨league, season, 10⟩ : NextParam), (0 : ℕ))
        ∈ (fetchNextFixtures fetch cache0 t0 league season).2.requests
    ∧ ∃ f0 ∈ data, (∀ g ∈ data, f0.date ≤ g.date)
        ∧ (fetchNextFixtures fetch cache0 t0 league season).1
            = data.filter (fun f => f.round = f0.round) := by
  have hget := getFromCache_none cache0 t0 (CKey.nextFixtures league season)
    CacheType.short hck
  have hfnf : fetchNextFixtures fetch cache0 t0 league season
      = nextMiss fetch cache0 t0 league season := by
    unfold fetchNextFixtures
    dsimp only
    rw [hget]
  obtain ⟨h1, h2⟩ := nextMiss_eval fetch cache0 t0 league season data hcb
    h200 hne
  rw [hfnf]
  refine ⟨h2, ?_⟩
  obtain ⟨hd, tl, rfl⟩ := List.exists_cons_of_ne_nil hne
  refine ⟨hd, List.mem_cons_self _ _, ?_, ?_⟩
  · intro g hg
    rcases List.mem_cons.mp hg with rfl | hgtl
    · exact le_refl _
    · exact (List.sorted_cons.mp hsorted).1 g hgtl
  · rw [h1]
    obtain ⟨rest2, hgr⟩ := groupRounds_head hd tl
    rw [hgr]
    simp

/-- Three upcoming fixtures: two in round "R28", a third (later) in
"R29". -/
def c8data : List RFixture := [⟨1, "R28", 5⟩, ⟨2, "R28", 6⟩, ⟨3, "R29", 7⟩]

/-- Witness for `next_fixtures_earliest_round`: the whole first round is
returned, not the first fixture only and not a prefix cut at 10. -/
theorem next_fixtures_earliest_round_witness :
    ((⟨39, "2024", 10⟩ : NextParam), (0 : ℕ))
        ∈ (fetchNextFixtures (fun _ _ => HttpOutcome.status 200 c8data)
            (fun _ _ => none) 0 39 "2024").2.requests
    ∧ ∃ f0 ∈ c8data, (∀ g ∈ c8data, f0.date ≤ g.date)
        ∧ (fetchNextFixtures (fun _ _ => HttpOutcome.status 200 c8data)
            (fun _ _ => none) 0 39 "2024").1
            = c8data.filter (fun f => f.round = f0.round) :=
  next_fixtures_earliest_round (fun _ _ => HttpOutcome.status 200 c8data)
    (fun _ _ => none) 0 39 "2024" c8data rfl rfl rfl (by decide)
    (by
      simp only [c8data, List.sorted_cons, List.mem_cons]
      norm_num)

/-- Possible return values of `fetch_player_statistics`: the cached
payload, the literal `[]` of the squad guard, or Python's implicit
`None` when control falls off the end of the function. -/
inductive PSResult (α : Type) where
  | cached (v : α)
  | emptyList
  | nothing
deriving DecidableEq

def playersSquadURL : String := "players/squads"

/-- `squad_results.get(json.dumps(squad_params))`. -/
def squadLookup {α : Type} (fetch : ℕ → ℕ → HttpOutcome α)
    (truthy : α → Bool) (c : CacheStore α) (t0 : ℚ) (team : ℕ) : Option α :=
  ((batchRequest (CKey.batch playersSquadURL) fetch truthy c t0
    [team]).results.find? (fun x => x.1 = team)).map (fun x => x.2)

/-- The body of `fetch_player_statistics` after a cache miss.  The
function's source ends at the squad guard
(`if not squad_data or not squad_data.get('response'): return []`); the
per-player batching code sits after an unconditional return inside
`format_odds` and is unreachable, so the fall-through returns `None`.
`respOf` models `squad_data.get('response')` (absent field = `[]`). -/
def psMiss {α : Type} (fetch : ℕ → ℕ → HttpOutcome α) (truthy : α → Bool)
    (respOf : α → List ℕ) (c : CacheStore α) (t0 : ℚ) (team : ℕ) :
    PSResult α × BRState ℕ α :=
  let st := batchRequest (CKey.batch playersSquadURL) fetch truthy c t0 [team]
  match squadLookup fetch truthy c t0 team with
  | none => (PSResult.emptyList, st)
  | some d =>
      if truthy d = false ∨ (respOf d).isEmpty then (PSResult.emptyList, st)
      else (PSResult.nothing, st)

/-- `FootballAPI.fetch_player_statistics`: medium-tier cache lookup with
a truthiness test, else the (truncated) fetch body. -/
def fetchPlayerStatistics {α : Type} (fetch : ℕ → ℕ → HttpOutcome α)
    (truthy : α → Bool) (respOf : α → List ℕ) (cache0 : CacheStore α)
    (t0 : ℚ) (league team : ℕ) : PSResult α × BRState ℕ α :=
  let g := getFromCache cache0 t0 (CKey.playerStats league team)
    CacheType.medium
  match g.1 with
  | some v =>
      if truthy v then (PSResult.cached v, ⟨[], g.2, t0, [], []⟩)
      else psMiss fetch truthy respOf g.2 t0 team
  | none => psMiss fetch truthy respOf g.2 t0 team

theorem getFromCache_fst_some {α : Type} (c : CacheStore α) (now : ℚ)
    (key : CKey) (ct : CacheType) (v : α)
    (h : (getFromCache c now key ct).1 = some v) :
    ∃ ts, c ct key = some (v, ts) ∧ now - ts < tierDuration ct := by
  revert h
  simp only [getFromCache]
  cases hc : c ct key with
  | none => intro h; cases h
  | some vts =>
      obtain ⟨v', ts⟩ := vts
      dsimp only
      by_cases hlt : now - ts < tierDuration ct
      · rw [if_pos hlt]
        intro h
        injection h with h'
        exact ⟨ts, by rw [h'], hlt⟩
      · rw [if_neg hlt]
        intro h
        cases h

theorem psMiss_eval {α : Type} (fetch : ℕ → ℕ → HttpOutcome α)
    (truthy : α → Bool) (respOf : α → List ℕ) (c : CacheStore α) (t0 : ℚ)
    (team : ℕ) :
    (∀ v, (psMiss fetch truthy respOf c t0 team).1 ≠ PSResult.cached v)
    ∧ ((psMiss fetch truthy respOf c t0 team).1 = PSResult.emptyList
        ∨ (psMiss fetch truthy respOf c t0 team).1 = PSResult.nothing)
    ∧ ((psMiss fetch truthy respOf c t0 team).1 = PSResult.emptyList
        ↔ (squadLookup fetch truthy c t0 team = none
            ∨ ∃ d, squadLookup fetch truthy c t0 team = some d
                ∧ (truthy d = false ∨ (respOf d).isEmpty)))
    ∧ ∀ (t : CacheType) (k : CKey), t ≠ CacheType.short →
        (psMiss fetch truthy respOf c t0 team).2.cache t k = c t k := by
  obtain ⟨rtl, qtl, stl, hr, hq, hs, hkr, hkq, hcc⟩ :=
    brFold_shape (CKey.batch playersSquadURL) fetch truthy [team]
      (⟨[], c, t0, [], []⟩ : BRState ℕ α)
  have hcache : ∀ (t : CacheType) (k : CKey), t ≠ CacheType.short →
      (batchRequest (CKey.batch playersSquadURL) fetch truthy c t0
        [team]).cache t k = c t k := by
    intro t k ht
    exact hcc t k (fun q hq' => fun hand => ht hand.1)
  unfold psMiss
  dsimp only
  cases hsq : squadLookup fetch truthy c t0 team with
  | none =>
      dsimp only
      refine ⟨?_, ?_, ?_, ?_⟩
      · intro v h
        cases h
      · exact Or.inl rfl
      · simp
      · exact hcache
  | some d =>
      dsimp only
      by_cases hcond : truthy d = false ∨ (respOf d).isEmpty
      · rw [if_pos hcond]
        refine ⟨?_, ?_, ?_, ?_⟩
        · intro v h
          cases h
        · exact Or.inl rfl
        · simp only [true_iff]
          exact Or.inr ⟨d, rfl, hcond⟩
        · exact hcache
      · rw [if_neg hcond]
        refine ⟨?_, ?_, ?_, ?_⟩
        · intro v h
          cases h
        · exact Or.inr rfl
        · constructor
          · intro h
            cases h
          · rintro (h | ⟨d', hd', hcond'⟩)
            · cases h
            · injection hd' with hdd
              subst hdd
              exact absurd hcond' hcond
        · exact hcache

/-- C10: with no fresh truthy cache hit, `fetch_player_statistics`
returns `[]` exactly when the squad fetch yields no usable response
(missing mapping entry, falsy payload, or falsy `response` field) and
`None` otherwise: the per-player batching code is unreachable (it sits
after an unconditional return inside `format_odds`), so the function
never returns assembled statistics and never writes its `player_stats`
cache key (the lookup's lazy eviction is the only cache effect at that
key). -/
theorem player_statistics_dead_code {α : Type}
    (fetch : ℕ → ℕ → HttpOutcome α) (truthy : α → Bool)
    (respOf : α → List ℕ) (cache0 : CacheStore α) (t0 : ℚ)
    (league team : ℕ)
    (hmiss : ∀ (v : α) (ts : ℚ),
      cache0 CacheType.medium (CKey.playerStats league team) = some (v, ts) →
      truthy v = false ∨ tierDuration CacheType.medium ≤ t0 - ts) :
    (∀ v, (fetchPlayerStatistics fetch truthy respOf cache0 t0 league team).1
        ≠ PSResult.cached v)
    ∧ ((fetchPlayerStatistics fetch truthy respOf cache0 t0 league team).1
          = PSResult.emptyList
        ↔ (squadLookup fetch truthy
            (getFromCache cache0 t0 (CKey.playerStats league team)
              CacheType.medium).2 t0 team = none
          ∨ ∃ d, squadLookup fetch truthy
              (getFromCache cache0 t0 (CKey.playerStats league team)
                CacheType.medium).2 t0 team = some d
              ∧ (truthy d = false ∨ (respOf d).isEmpty)))
    ∧ (fetchPlayerStatistics fetch truthy respOf cache0 t0
          league team).2.cache CacheType.medium
          (CKey.playerStats league team)
        = (getFromCache cache0 t0 (CKey.playerStats league team)
            CacheType.medium).2 CacheType.medium
            (CKey.playerStats league team) := by
  unfold fetchPlayerStatistics
  dsimp only
  cases hg : (getFromCache cache0 t0 (CKey.playerStats league team)
      CacheType.medium).1 with
  | some v =>
      obtain ⟨ts, hentry, hfresh⟩ := getFromCache_fst_some cache0 t0 _ _ v hg
      have hfv : truthy v = false := by
        rcases hmiss v ts hentry with h | h
        · exact h
        · exact absurd hfresh (not_lt.mpr h)
      dsimp only
      rw [hfv]
      rw [if_neg (by simp)]
      obtain ⟨h1, h2, h3, h4⟩ := psMiss_eval fetch truthy respOf
        (getFromCache cache0 t0 (CKey.playerStats league team)
          CacheType.medium).2 t0 team
      exact ⟨h1, h3, h4 CacheType.medium _ (by decide)⟩
  | none =>
      obtain ⟨h1, h2, h3, h4⟩ := psMiss_eval fetch truthy respOf
        (getFromCache cache0 t0 (CKey.playerStats league team)
          CacheType.medium).2 t0 team
      exact ⟨h1, h3, h4 CacheType.medium _ (by decide)⟩

/-- Witness for `player_statistics_dead_code`. -/
theorem player_statistics_dead_code_witness :
    (fetchPlayerStatistics (fun _ _ => HttpOutcome.status 200 ([] : List ℕ))
        (fun xs => !xs.isEmpty) (fun xs => xs) (fun _ _ => none) 0 39 50).1
      ≠ PSResult.cached [7]
    ∧ (fetchPlayerStatistics (fun _ _ => HttpOutcome.status 200 ([] : List ℕ))
        (fun xs => !xs.isEmpty) (fun xs => xs) (fun _ _ => none) 0 39
          50).2.cache CacheType.medium (CKey.playerStats 39 50)
      = (getFromCache (fun _ _ => none : CacheStore (List ℕ)) 0
          (CKey.playerStats 39 50) CacheType.medium).2 CacheType.medium
          (CKey.playerStats 39 50) := by
  have h := player_statistics_dead_code
    (fun _ _ => HttpOutcome.status 200 ([] : List ℕ))
    (fun xs => !xs.isEmpty) (fun xs => xs) (fun _ _ => none) 0 39 50
    (by intro v ts hh; exact Option.noConfusion hh)
  exact ⟨h.1 [7], h.2.2⟩
